import Mathlib

/-!
Verification development for the group-wise (clustering) aggregator of the
FLmedical repository, file aggregators/GroupWise.py.

Embedding conventions:
- Tensor scalars are exact rationals.
- A parameter tensor flattened by view(-1) is a list of rationals; a model
  (nn.Module) is its list of named parameter tensors in declaration order.
- The pluggable aggregation strategies (internalAggregator.aggregate and
  externalAggregator.aggregate) and the inherited helper _mergeModels are
  external to GroupWise.py; they appear as function parameters, and concrete
  instantiations used in counterexamples are defined separately.
- torch.nn.CosineSimilarity(dim) computes dot x y / max (norm x * norm y) eps
  with default eps = 1e-8.  Comparisons of such a similarity against a
  positive bound t are rendered by the decidable predicate cosLtB below,
  which is equivalent over the rationals (squaring away the square root).
- Fallible Python code (IndexError on out-of-range list writes, TypeError on
  the call at line 140 of GroupWise.py that omits the required models
  argument) is rendered with Except.
-/

namespace GroupWise

/-- A flattened parameter tensor: param.data.view(-1). -/
abbrev Param := List ℚ

/-- A model as its ordered list of named parameter tensors. -/
abbrev Model := List Param

/-- An aggregation strategy: aggregate(clients, models) where each client
contributes its stake p.  Mirrors AggregationStrategy.aggregate. -/
abbrev Agg := List ℚ → List Model → Model

/-- The inherited _mergeModels(mOrig, mDest, alphaOrig, alphaDest) helper,
kept abstract: it returns the new destination model. -/
abbrev Merge := Model → Model → ℚ → ℚ → Model

/-- Default eps of torch.nn.CosineSimilarity. -/
def eps : ℚ := 1 / 100000000

/-- The fixed convergence threshold 0.99 at line 126 of GroupWise.py. -/
def threshold : ℚ := 99 / 100

/-- Flattening of one model: coords = cat(coords, param.data.view(-1)) over
named_parameters, from _generate_weights. -/
def flattenModel (m : Model) : Param :=
  m.foldl (fun coords p => coords ++ p) []

/-- GroupWiseAggregation._generate_weights: X = cat(X, coords) over the models
dict in insertion order (client order). -/
def generateWeights (ms : List Model) : List ℚ :=
  ms.foldl (fun X m => X ++ flattenModel m) []

/-- Dot product of two equal-length rational vectors. -/
def dotList (x y : List ℚ) : ℚ := (List.zipWith (fun a b => a * b) x y).sum

/-- Squared euclidean norm. -/
def sqNorm (x : List ℚ) : ℚ := dotList x x

/-- Cosine similarity of two scalar (0-dimensional) tensors under torch
semantics: a * b / max (abs a * abs b) eps.  This is the value computed by
cos(model, cluster) at line 133 of GroupWise.py, where both arguments are
single entries of 1-dimensional tensors. -/
def cosScalar (a b : ℚ) : ℚ := a * b / max (|a| * |b|) eps

/-- Decidable rendering of the comparison cos(x, y) < t for a positive bound
t, where cos is torch CosineSimilarity over dimension 0 on 1-dimensional
tensors: dot x y / max (norm x * norm y) eps < t.  The square root of the
norm product is eliminated by squaring, which is an equivalence because
t > 0.  This is the loop guard expression at line 126 of GroupWise.py. -/
def cosLtB (x y : List ℚ) (t : ℚ) : Bool :=
  if eps ^ 2 ≤ sqNorm x * sqNorm y then
    decide (dotList x y < 0) ||
      (decide (0 ≤ dotList x y) &&
        decide (dotList x y ^ 2 < t ^ 2 * (sqNorm x * sqNorm y)))
  else
    decide (dotList x y < t * eps)

/-- The member list [val for val in self.cluster_choices if val == choice]
appearing at lines 44 and 90 of GroupWise.py.  Note it collects the matching
values themselves (each equal to the cluster index), not client positions. -/
def memberList (choices : List Int) (c : Int) : List Int :=
  choices.filter (fun val => val == c)

/-- GroupWiseAggregation._gen_cluster_centre: aggregates clients[i] and
models[i+1] for i in indices with the internal strategy, then takes entry 0
of the flattened result (models are held in a list indexed from 0, so the
dict entry with key i+1 is position i). -/
def genClusterCentre (agg : Agg) (ps : List ℚ) (models : List Model)
    (indices : List Int) : ℚ :=
  let model := agg (indices.map fun i => ps.getD i.toNat 0)
                   (indices.map fun i => models.getD i.toNat [])
  (flattenModel model).getD 0 0

/-- The else branch of _init_cluster_centres (lines 88-91): for every choice
in range(cluster_count), overwrite cluster_centres[choice] with the centre
generated from that choice member list. -/
def updateClusterCentres (agg : Agg) (ps : List ℚ) (models : List Model)
    (K : Nat) (choices : List Int) (centres : List ℚ) : List ℚ :=
  (List.range K).foldl
    (fun cs c => cs.set c (genClusterCentre agg ps models (memberList choices (c : Int))))
    centres

/-- The clustering state of a GroupWiseAggregation object: cluster_centres
(None before the first round) and cluster_choices. -/
structure ClusterState where
  centres : Option (List ℚ)
  choices : List Int
deriving DecidableEq, Repr

/-- Sample space of torch.randint(high, size=(K,)): any list of K indices,
each independently drawn below the bound high = len(models_weights). -/
def validDraw (high K : Nat) (draw : List Nat) : Prop :=
  draw.length = K ∧ ∀ i ∈ draw, i < high

instance (high K : Nat) (draw : List Nat) : Decidable (validDraw high K draw) := by
  unfold validDraw; infer_instance

/-- GroupWiseAggregation._init_cluster_centres: on the first call (centres
None) take the entries of models_weights at the drawn positions; otherwise
regenerate every centre from the current cluster_choices. -/
def initClusterCentresFn (agg : Agg) (ps : List ℚ) (models : List Model)
    (K : Nat) (draw : List Nat) (mw : List ℚ) (st : ClusterState) : ClusterState :=
  match st.centres with
  | none => ⟨some (draw.map fun i => mw.getD i 0), st.choices⟩
  | some cs => ⟨some (updateClusterCentres agg ps models K st.choices cs), st.choices⟩

/-- The running best-similarity scan of lines 130-136: state (best_sim,
choice) starting at (0, -1), visiting positions from j, updating only on a
strictly larger similarity. -/
def chooseAux : List ℚ → ℚ → Int → Nat → ℚ × Int
  | [], best, choice, _ => (best, choice)
  | s :: rest, best, choice, j =>
    if best < s then chooseAux rest s (j : Int) (j + 1)
    else chooseAux rest best choice (j + 1)

/-- The cluster choice computed for one entry of models_weights: the scan of
chooseAux over the similarities of that entry against every centre. -/
def assignOne (v : ℚ) (centres : List ℚ) : Int :=
  (chooseAux (centres.map (fun c => cosScalar v c)) 0 (-1) 0).2

/-- Python exceptions raised by the clustering code paths. -/
inductive PyErr
  | typeError
  | indexError
  | fuelExhausted
deriving DecidableEq, Repr

/-- The assignment sweep of lines 129-138: writes cluster_choices[i] for every
index i of models_weights; raises IndexError when models_weights is longer
than cluster_choices (the write at position len(cluster_choices) is out of
range). -/
def assignStep (mw centres : List ℚ) (choices : List Int) : Except PyErr (List Int) :=
  if mw.length ≤ choices.length then
    .ok (mw.enum.foldl (fun ch p => ch.set p.1 (assignOne p.2 centres)) choices)
  else
    .error .indexError

/-- The call self._init_cluster_centres(models_weights) at line 140: the
required positional argument models is missing, so Python raises TypeError
before any update happens. -/
def brokenUpdateCall : Except PyErr (List ℚ) := .error .typeError

/-- The while loop of lines 126-140, with an explicit iteration budget.  The
guard cos(old_centres, self.cluster_centres) < 0.99 is evaluated with both
arguments referring to the same tensor, because old_centres is bound to
self.cluster_centres (line 123, and again line 127) and tensors are aliased,
not copied. -/
def clusteringLoop (mw : List ℚ) : Nat → List ℚ → List Int → Except PyErr (List ℚ × List Int)
  | 0, _, _ => .error .fuelExhausted
  | fuel + 1, centres, choices =>
    if cosLtB centres centres threshold then
      match assignStep mw centres choices with
      | .error e => .error e
      | .ok choicesNew =>
        match brokenUpdateCall with
        | .error e => .error e
        | .ok centresNew => clusteringLoop mw fuel centresNew choicesNew
    else
      .ok (centres, choices)

/-- GroupWiseAggregation.clustering: flatten the models, run
_init_cluster_centres, then the convergence loop. -/
def clustering (agg : Agg) (ps : List ℚ) (models : List Model) (K : Nat)
    (draw : List Nat) (fuel : Nat) (st : ClusterState) : Except PyErr ClusterState :=
  let mw := generateWeights models
  let st1 := initClusterCentresFn agg ps models K draw mw st
  match clusteringLoop mw fuel (st1.centres.getD []) st1.choices with
  | .error e => .error e
  | .ok r => .ok ⟨some r.1, r.2⟩

/-- The per-cluster model built at lines 43-57 of trainAndTest: starting from
a fresh copy of the global model with comb = 0, merge models[i+1] with weight
clients[i].p for every i in the member list, setting comb = 1 afterwards. -/
def buildClusterModel (merge : Merge) (gm : Model) (models : List Model)
    (ps : List ℚ) (choices : List Int) (c : Nat) : Model :=
  ((memberList choices (c : Int)).foldl
    (fun (acc : Model × ℚ) i =>
      (merge (models.getD i.toNat []) acc.1 (ps.getD i.toNat 0) acc.2, 1))
    (gm, 0)).1

/-- cluster_model_count: the member count of every cluster index. -/
def clusterCounts (K : Nat) (choices : List Int) : List Nat :=
  (List.range K).map fun (c : Nat) => (memberList choices (c : Int)).length

/-- The FakeClient p values val / len(self.clients) built at line 65. -/
def clusterWeights (K : Nat) (choices : List Int) (n : Nat) : List ℚ :=
  (clusterCounts K choices).map fun (v : Nat) => (v : ℚ) / (n : ℚ)

/-- The external aggregation call of line 65: the external strategy applied to
the weights and cluster models of every cluster index in range(cluster_count),
where n = len(self.clients) = ps.length. -/
def roundAggregate (merge : Merge) (external : Agg) (gm : Model)
    (models : List Model) (ps : List ℚ) (K : Nat) (choices : List Int) : Model :=
  external (clusterWeights K choices ps.length)
    ((List.range K).map fun c => buildClusterModel merge gm models ps choices c)

/-- Convergence test as the spec words it (claim side, for comparison with
the source test cosLtB): per-index cosine similarity between the old and the
new centre list, repeating exactly when the minimum over the indices is below
the threshold, i.e. when some index has similarity below it. -/
def specPerIndexRepeat (old new : List ℚ) : Bool :=
  (List.zipWith (fun a b => cosScalar a b) old new).any fun s => decide (s < threshold)

/-- Modelled from the spec: the inherited helper Aggregator._mergeModels is
not among the provided source files; sections 4.2 and 8 of the spec describe
the merge used by the weighted-mean strategies as the accumulation
dest = alphaOrig * origin + alphaDest * dest, taken pointwise. -/
def specMergeModels : Merge := fun orig dest a b =>
  List.zipWith (fun po pd => List.zipWith (fun x y => a * x + b * y) po pd) orig dest

/-- A concrete admissible strategy: the simple average of the first scalars
of the given models, ignoring stakes (the simple-average variant named in
section 2 of the spec), used to instantiate external black boxes in
counterexamples. -/
def simpleAverageStrategy : Agg := fun _ ms =>
  [[((ms.map fun m => (flattenModel m).getD 0 0).sum) / (ms.length : ℚ)]]

/-- A concrete admissible strategy with constant output, well defined on
every input including an empty member list. -/
def constSevenStrategy : Agg := fun _ _ => [[7]]

/-- A placeholder strategy for statements whose code path never invokes the
strategy. -/
def dummyStrategy : Agg := fun _ _ => []

/-- External aggregation as the spec words it (claim side): the strategy
applied to the weight and representative pairs of only the non-empty
clusters. -/
def specRoundAggregateNonEmpty (merge : Merge) (external : Agg) (gm : Model)
    (models : List Model) (ps : List ℚ) (K : Nat) (choices : List Int) : Model :=
  let nonEmptyIdx : List Nat := (List.range K).filter fun c => !(memberList choices (c : Int)).isEmpty
  external (nonEmptyIdx.map fun (c : Nat) => ((memberList choices (c : Int)).length : ℚ) / (ps.length : ℚ))
    (nonEmptyIdx.map fun (c : Nat) => buildClusterModel merge gm models ps choices c)

/-! Helper lemmas. -/

theorem foldl_cat_eq_flatten : ∀ (ms : List Model) (acc : List ℚ),
    ms.foldl (fun X m => X ++ flattenModel m) acc = acc ++ (ms.map flattenModel).flatten
  | [], acc => by simp
  | m :: rest, acc => by
      simp only [List.foldl_cons, List.map_cons, List.flatten, foldl_cat_eq_flatten rest]
      simp [List.append_assoc]

theorem generateWeights_eq_flatten (ms : List Model) :
    generateWeights ms = (ms.map flattenModel).flatten := by
  simpa using foldl_cat_eq_flatten ms []

theorem flatten_length_uniform : ∀ (ls : List (List ℚ)) (m : Nat),
    (∀ l ∈ ls, l.length = m) → ls.flatten.length = ls.length * m
  | [], m, _ => by simp
  | l :: rest, m, h => by
      have hl : l.length = m := h l (List.mem_cons_self _ _)
      have hr := flatten_length_uniform rest m fun x hx => h x (List.mem_cons_of_mem _ hx)
      simp [List.flatten, hl, hr, Nat.succ_mul, Nat.add_comm]

/-- C9. _generate_weights returns the boundary-free concatenation of all the
models' flattened parameters: one flat list of scalars whose length is the
number of models times the per-model element count.  Indexing it therefore
yields a single scalar, never a per-client vector. -/
theorem claim9_generate_weights_concatenates (ms : List Model) (m : Nat)
    (h : ∀ mo ∈ ms, (flattenModel mo).length = m) :
    generateWeights ms = (ms.map flattenModel).flatten ∧
    (generateWeights ms).length = ms.length * m := by
  refine ⟨generateWeights_eq_flatten ms, ?_⟩
  rw [generateWeights_eq_flatten ms]
  have := flatten_length_uniform (ms.map flattenModel) m (by
    intro l hl
    obtain ⟨mo, hmo, rfl⟩ := List.mem_map.mp hl
    exact h mo hmo)
  simpa using this

/-- C9 witness: two models of two scalars each concatenate to one flat list
of four scalars. -/
theorem claim9_witness :
    (∀ mo ∈ [[[(1 : ℚ), 2]], [[3, 4]]], (flattenModel mo).length = 2) ∧
    (generateWeights [[[(1 : ℚ), 2]], [[3, 4]]]
        = (([[[(1 : ℚ), 2]], [[3, 4]]]).map flattenModel).flatten ∧
      (generateWeights [[[(1 : ℚ), 2]], [[3, 4]]]).length = 2 * 2) :=
  ⟨by decide, claim9_generate_weights_concatenates [[[(1 : ℚ), 2]], [[3, 4]]] 2 (by decide)⟩

/-- C10. The member list [val for val in cluster_choices if val == choice]
is the cluster index itself repeated once per assigned client, so the model
and stake lists built from it in trainAndTest and _gen_cluster_centre are
that many copies of the single entry at dict key choice + 1 (list position
choice), not the member clients' own models and stakes. -/
theorem claim10_member_list_replicates (choices : List Int) (c : Int)
    (models : List Model) (ps : List ℚ) :
    memberList choices c = List.replicate (choices.count c) c ∧
    (memberList choices c).map (fun i => models.getD i.toNat []) =
      List.replicate (choices.count c) (models.getD c.toNat []) ∧
    (memberList choices c).map (fun i => ps.getD i.toNat 0) =
      List.replicate (choices.count c) (ps.getD c.toNat 0) := by
  have h : memberList choices c = List.replicate (choices.count c) c :=
    List.filter_beq choices c
  refine ⟨h, ?_, ?_⟩ <;> rw [h, List.map_replicate]

/-! Properties of the best-similarity scan (claim C1). -/

theorem chooseAux_no_update : ∀ (s : List ℚ) (b : ℚ) (c : Int) (j : Nat),
    (∀ x ∈ s, x ≤ b) → chooseAux s b c j = (b, c)
  | [], _, _, _, _ => rfl
  | x :: rest, b, c, j, h => by
      have hx : ¬ b < x := not_lt.mpr (h x (List.mem_cons_self _ _))
      simp only [chooseAux, if_neg hx]
      exact chooseAux_no_update rest b c (j + 1) fun y hy => h y (List.mem_cons_of_mem _ hy)

theorem chooseAux_gain : ∀ (s : List ℚ) (b : ℚ) (c : Int) (j : Nat),
    (∃ x ∈ s, b < x) →
    ∃ k, ∃ hk : k < s.length,
      chooseAux s b c j = (s.get ⟨k, hk⟩, ((j + k : Nat) : Int)) ∧
      (∀ i, (hi : i < s.length) → s.get ⟨i, hi⟩ ≤ s.get ⟨k, hk⟩) ∧
      (∀ i, (hi : i < k) → s.get ⟨i, Nat.lt_trans hi hk⟩ < s.get ⟨k, hk⟩) ∧
      b < s.get ⟨k, hk⟩
  | [], _, _, _, h => absurd h (by simp)
  | x :: rest, b, c, j, h => by
      by_cases hbx : b < x
      · simp only [chooseAux, if_pos hbx]
        by_cases hrest : ∃ y ∈ rest, x < y
        · obtain ⟨k, hk, heq, hmax, hfirst, hgt⟩ := chooseAux_gain rest x (j : Int) (j + 1) hrest
          refine ⟨k + 1, Nat.succ_lt_succ hk, ?_, ?_, ?_, ?_⟩
          · rw [heq]
            have hjk : j + 1 + k = j + (k + 1) := by omega
            rw [hjk]
            rfl
          · intro i hi
            match i, hi with
            | 0, _ => simpa using le_of_lt hgt
            | Nat.succ n, hi => simpa using hmax n (Nat.lt_of_succ_lt_succ hi)
          · intro i hi
            match i, hi with
            | 0, _ => simpa using hgt
            | Nat.succ n, hi => simpa using hfirst n (Nat.lt_of_succ_lt_succ hi)
          · simpa using lt_trans hbx hgt
        · push_neg at hrest
          rw [chooseAux_no_update rest x (j : Int) (j + 1) hrest]
          refine ⟨0, Nat.succ_pos _, rfl, ?_, ?_, by simpa using hbx⟩
          · intro i hi
            match i, hi with
            | 0, _ => exact le_refl _
            | Nat.succ n, hi =>
                simpa using hrest (rest.get ⟨n, Nat.lt_of_succ_lt_succ hi⟩)
                  (rest.get_mem n (Nat.lt_of_succ_lt_succ hi))
          · intro i hi
            exact absurd hi (Nat.not_lt_zero i)
      · simp only [chooseAux, if_neg hbx]
        have hrest : ∃ y ∈ rest, b < y := by
          obtain ⟨y, hy, hby⟩ := h
          rcases List.mem_cons.mp hy with rfl | hy2
          · exact absurd hby hbx
          · exact ⟨y, hy2, hby⟩
        obtain ⟨k, hk, heq, hmax, hfirst, hgt⟩ := chooseAux_gain rest b c (j + 1) hrest
        refine ⟨k + 1, Nat.succ_lt_succ hk, ?_, ?_, ?_, by simpa using hgt⟩
        · rw [heq]
          have hjk : j + 1 + k = j + (k + 1) := by omega
          rw [hjk]
          rfl
        · intro i hi
          match i, hi with
          | 0, _ => simpa using le_trans (not_lt.mp hbx) (le_of_lt hgt)
          | Nat.succ n, hi => simpa using hmax n (Nat.lt_of_succ_lt_succ hi)
        · intro i hi
          match i, hi with
          | 0, _ => simpa using lt_of_le_of_lt (not_lt.mp hbx) hgt
          | Nat.succ n, hi => simpa using hfirst n (Nat.lt_of_succ_lt_succ hi)

/-- C1 counterexample: the scan of lines 130-136 starts from best_sim = 0 and
choice = -1, so an entry whose cosine similarity to every centre is
non-positive (here the entry -1 against centres 1, 2, 3) keeps the sentinel
choice -1, which is not a cluster index in [0, K) for K = 3. -/
theorem claim1_counterexample :
    assignOne (-1) [1, 2, 3] = -1 ∧
    ¬ ((0 : Int) ≤ assignOne (-1) [1, 2, 3] ∧ assignOne (-1) [1, 2, 3] < 3) := by
  norm_num [assignOne, chooseAux, cosScalar, eps]

/-- C1 amended: provided some centre has strictly positive cosine similarity
with the entry, the assignment scan picks a cluster index in [0, K): the
lowest index attaining the maximal similarity (so ties do prefer the lowest
index); entries with no strictly positive similarity keep -1 instead
(claim1_counterexample).  The entries assigned are the scalar components of
the flattened weight vector, not per-client vectors. -/
theorem claim1_amended (v : ℚ) (cs : List ℚ) (h : ∃ c ∈ cs, 0 < cosScalar v c) :
    ∃ k, ∃ hk : k < cs.length,
      assignOne v cs = (k : Int) ∧
      0 < cosScalar v (cs.get ⟨k, hk⟩) ∧
      (∀ i, (hi : i < cs.length) →
        cosScalar v (cs.get ⟨i, hi⟩) ≤ cosScalar v (cs.get ⟨k, hk⟩)) ∧
      (∀ i, (hi : i < k) →
        cosScalar v (cs.get ⟨i, Nat.lt_trans hi hk⟩) < cosScalar v (cs.get ⟨k, hk⟩)) := by
  have hs : ∃ x ∈ cs.map (fun c => cosScalar v c), 0 < x := by
    obtain ⟨c, hc, hpos⟩ := h
    exact ⟨cosScalar v c, List.mem_map_of_mem _ hc, hpos⟩
  obtain ⟨k, hk, heq, hmax, hfirst, hgt⟩ := chooseAux_gain _ 0 (-1) 0 hs
  have hklen : k < cs.length := by simpa using hk
  refine ⟨k, hklen, ?_, ?_, ?_, ?_⟩
  · rw [assignOne, heq]
    simp
  · simpa using hgt
  · intro i hi
    simpa using hmax i (by simpa using hi)
  · intro i hi
    simpa using hfirst i hi

/-- C1 witness: at v = 1 against the single centre 1 the similarity is
positive and the scan returns index 0. -/
theorem claim1_witness :
    (∃ c ∈ [(1 : ℚ)], 0 < cosScalar 1 c) ∧
    (∃ k, ∃ hk : k < [(1 : ℚ)].length,
      assignOne 1 [1] = (k : Int) ∧
      0 < cosScalar 1 ([(1 : ℚ)].get ⟨k, hk⟩) ∧
      (∀ i, (hi : i < [(1 : ℚ)].length) →
        cosScalar 1 ([(1 : ℚ)].get ⟨i, hi⟩) ≤ cosScalar 1 ([(1 : ℚ)].get ⟨k, hk⟩)) ∧
      (∀ i, (hi : i < k) →
        cosScalar 1 ([(1 : ℚ)].get ⟨i, Nat.lt_trans hi hk⟩) <
          cosScalar 1 ([(1 : ℚ)].get ⟨k, hk⟩))) :=
  ⟨⟨1, by simp, by norm_num [cosScalar, eps]⟩,
    claim1_amended 1 [1] ⟨1, by simp, by norm_num [cosScalar, eps]⟩⟩

/-! The convergence loop (claims C2, C3, C8). -/

theorem clusteringLoop_succ (mw : List ℚ) (f : Nat) (centres : List ℚ) (choices : List Int) :
    clusteringLoop mw (f + 1) centres choices =
      if cosLtB centres centres threshold then
        match assignStep mw centres choices with
        | .error e => .error e
        | .ok _ => .error .typeError
      else .ok (centres, choices) := rfl

/-- C2. The convergence loop never exhausts any positive iteration budget:
its behaviour under any cap of at least one iteration equals its behaviour
under a cap of one, because the only loop path either fails the entry test
at once or raises inside the first body (the write sweep or the malformed
recomputation call), so the loop terminates well within a cap such as 100
for every input. -/
theorem claim2_loop_terminates_within_cap (mw : List ℚ) (fuel : Nat)
    (centres : List ℚ) (choices : List Int) (h : 1 ≤ fuel) :
    clusteringLoop mw fuel centres choices = clusteringLoop mw 1 centres choices ∧
    clusteringLoop mw fuel centres choices ≠ .error .fuelExhausted := by
  obtain ⟨f, rfl⟩ : ∃ f, fuel = f + 1 := ⟨fuel - 1, by omega⟩
  constructor
  · rw [clusteringLoop_succ, clusteringLoop_succ]
  · rw [clusteringLoop_succ]
    by_cases hg : cosLtB centres centres threshold
    · by_cases hlen : mw.length ≤ choices.length
      · simp [hg, assignStep, hlen]
      · simp [hg, assignStep, hlen]
    · simp [hg]

/-- C2 witness: the loop under cap 100 at a concrete input. -/
theorem claim2_witness :
    1 ≤ 100 ∧
    (clusteringLoop [1] 100 [1, 1, 1] [0] = clusteringLoop [1] 1 [1, 1, 1] [0] ∧
      clusteringLoop [1] 100 [1, 1, 1] [0] ≠ .error .fuelExhausted) :=
  ⟨by decide, claim2_loop_terminates_within_cap [1] 100 [1, 1, 1] [0] (by decide)⟩

theorem dotList_self_eq_sqNorm (x : List ℚ) : dotList x x = sqNorm x := rfl

theorem sqNorm_nonneg (x : List ℚ) : 0 ≤ sqNorm x := by
  unfold sqNorm dotList
  rw [List.zipWith_same]
  apply List.sum_nonneg
  intro a ha
  obtain ⟨b, hb, rfl⟩ := List.mem_map.mp ha
  exact mul_self_nonneg b

/-- The loop guard at line 126 compares the centre tensor with itself, and
under the eps clamp of torch cosine similarity the self-similarity is below
0.99 exactly when the squared norm is below 0.99 * 1e-8. -/
theorem cosLtB_self_eq (c : List ℚ) :
    cosLtB c c threshold = decide (sqNorm c < threshold * eps) := by
  have hs : 0 ≤ sqNorm c := sqNorm_nonneg c
  have hd : dotList c c = sqNorm c := rfl
  unfold cosLtB
  rw [hd]
  by_cases h : eps ^ 2 ≤ sqNorm c * sqNorm c
  · rw [if_pos h]
    have heps : (0 : ℚ) < eps := by norm_num [eps]
    have hse : eps ≤ sqNorm c := by nlinarith
    have h1 : decide (sqNorm c < 0) = false := decide_eq_false (not_lt.mpr hs)
    have h2 : decide (sqNorm c ^ 2 < threshold ^ 2 * (sqNorm c * sqNorm c)) = false := by
      apply decide_eq_false
      have ht : threshold ^ 2 < 1 := by norm_num [threshold]
      nlinarith
    have h3 : decide (sqNorm c < threshold * eps) = false := by
      apply decide_eq_false
      have ht : threshold * eps < eps := by norm_num [threshold, eps]
      linarith
    rw [h1, h2, h3]
    simp
  · rw [if_neg h]

/-- C3 counterexample: the test from the source is one cosine similarity of
the whole centre lists along dimension 0, not a per-index minimum.  At the
centre lists [1, 2] and [2, 1] the source test fires (the whole-list
similarity is 0.8 < 0.99) while every per-index similarity equals 1, so the
per-index minimum criterion of the claim would stop. -/
theorem claim3_counterexample :
    cosLtB [1, 2] [2, 1] threshold = true ∧
    specPerIndexRepeat [1, 2] [2, 1] = false := by
  norm_num [cosLtB, specPerIndexRepeat, cosScalar, dotList, sqNorm, threshold, eps]

/-- C3 amended: the convergence test applies one whole-tensor cosine
similarity (dimension 0) to the pair (old_centres, cluster_centres), and
since old_centres aliases cluster_centres it always compares the current
centre tensor with itself; under the eps clamp the loop body is skipped and
the state returned unchanged exactly when the squared norm of the centre
tensor is at least 0.99 * 1e-8, independent of any newly recomputed centre
set (whenever the body does run, it raises instead of completing). -/
theorem claim3_amended (mw : List ℚ) (fuel : Nat) (centres : List ℚ) (choices : List Int) :
    cosLtB centres centres threshold = decide (sqNorm centres < threshold * eps) ∧
    (clusteringLoop mw (fuel + 1) centres choices = .ok (centres, choices) ↔
      ¬ sqNorm centres < threshold * eps) := by
  refine ⟨cosLtB_self_eq centres, ?_⟩
  rw [clusteringLoop_succ]
  by_cases hlt : sqNorm centres < threshold * eps
  · have hg : cosLtB centres centres threshold = true := by
      rw [cosLtB_self_eq]
      exact decide_eq_true hlt
    by_cases hlen : mw.length ≤ choices.length
    · simp [hg, assignStep, hlen, hlt]
    · simp [hg, assignStep, hlen, hlt]
  · have hg : cosLtB centres centres threshold = false := by
      rw [cosLtB_self_eq]
      exact decide_eq_false hlt
    simp [hg, hlt]

/-! Centre updates (claim C4). -/

theorem foldl_set_length (f : Nat → ℚ) : ∀ (L : List Nat) (cs : List ℚ),
    (L.foldl (fun l i => l.set i (f i)) cs).length = cs.length
  | [], _ => rfl
  | i :: rest, cs => by
      simp only [List.foldl_cons, foldl_set_length f rest, List.length_set]

theorem foldl_set_range_getD (f : Nat → ℚ) : ∀ (K : Nat) (cs : List ℚ) (c : Nat),
    c < K → c < cs.length →
    ((List.range K).foldl (fun l i => l.set i (f i)) cs).getD c 0 = f c
  | 0, _, c, hc, _ => absurd hc (Nat.not_lt_zero c)
  | K + 1, cs, c, hc, hlen => by
      rw [List.range_succ, List.foldl_append, List.foldl_cons, List.foldl_nil]
      have hplen : ((List.range K).foldl (fun l i => l.set i (f i)) cs).length = cs.length :=
        foldl_set_length f (List.range K) cs
      rcases Nat.lt_succ_iff_lt_or_eq.mp hc with hlt | rfl
      · have hne : K ≠ c := by omega
        rw [List.getD_eq_getElem _ _ (by simp [hplen]; omega)]
        rw [List.getElem_set_ne hne]
        rw [← List.getD_eq_getElem _ _ (by omega : c < ((List.range K).foldl (fun l i => l.set i (f i)) cs).length)]
        exact foldl_set_range_getD f K cs c hlt hlen
      · rw [List.getD_eq_getElem _ _ (by simp [hplen]; omega)]
        exact List.getElem_set_self _

/-- C4 counterexample: clusters 1 and 2 have no member under the choices
[0, 0], yet the update overwrites their previous centre 5 with the output of
the internal strategy applied to the empty member list (here a strategy that
is well defined on empty input and returns the model [[7]]); the previous
centre is not retained. -/
theorem claim4_counterexample :
    memberList [0, 0] 1 = [] ∧
    updateClusterCentres constSevenStrategy [1 / 2, 1 / 2] [[[5]], [[5]]] 3 [0, 0] [5, 5, 5]
      = [7, 7, 7] ∧
    (7 : ℚ) ≠ 5 := by
  refine ⟨by decide, ?_, by norm_num⟩
  decide

/-- C4 amended: the update step recomputes the centre of every cluster index
below K, empty clusters included: each slot receives the internal strategy
output for its (possibly empty) member list, and the previous centre value
is never read back. -/
theorem claim4_amended (agg : Agg) (ps : List ℚ) (models : List Model) (K : Nat)
    (choices : List Int) (centres : List ℚ) (c : Nat) (hc : c < K)
    (hlen : c < centres.length) :
    (updateClusterCentres agg ps models K choices centres).getD c 0 =
      genClusterCentre agg ps models (memberList choices (c : Int)) :=
  foldl_set_range_getD
    (fun i => genClusterCentre agg ps models (memberList choices (i : Int)))
    K centres c hc hlen

/-- C4 witness: the empty cluster 1 of a two-slot centre list is overwritten
with the strategy output for the empty member list. -/
theorem claim4_witness :
    ((1 : Nat) < 2 ∧ (1 : Nat) < ([5, 5] : List ℚ).length) ∧
    (updateClusterCentres constSevenStrategy [1] [[[5]]] 2 [0] [5, 5]).getD 1 0 =
      genClusterCentre constSevenStrategy [1] [[[5]]] (memberList [0] (1 : Int)) :=
  ⟨⟨by decide, by decide⟩,
    claim4_amended constSevenStrategy [1] [[[5]]] 2 [0] [5, 5] 1 (by decide) (by decide)⟩

/-! The external aggregation round (claims C5, C6). -/

theorem getD_map_range {α : Type} (f : Nat → α) (K c : Nat) (h : c < K) (d : α) :
    ((List.range K).map f).getD c d = f c := by
  rw [List.getD_eq_getElem _ _ (by simpa using h)]
  simp

/-- C5 counterexample: with K = 3 and a single client in cluster 0, the
external strategy is invoked on three weight and model pairs, the two empty
clusters contributing weight 0 and a copy of the current global model [[8]];
with the simple-average external strategy the round result is [[6]], not the
strategy applied to exactly the non-empty representatives, which gives
[[2]]. -/
theorem claim5_counterexample :
    clusterCounts 3 [0] = [1, 0, 0] ∧
    ((List.range 3).map fun c =>
      buildClusterModel specMergeModels [[8]] [[[2]]] [1] [0] c) = [[[2]], [[8]], [[8]]] ∧
    roundAggregate specMergeModels simpleAverageStrategy [[8]] [[[2]]] [1] 3 [0] = [[6]] ∧
    specRoundAggregateNonEmpty specMergeModels simpleAverageStrategy [[8]] [[[2]]] [1] 3 [0]
      = [[2]] ∧
    [[(6 : ℚ)]] ≠ [[(2 : ℚ)]] := by
  refine ⟨by decide, ?_, ?_, ?_, by norm_num⟩ <;>
    norm_num [roundAggregate, specRoundAggregateNonEmpty, buildClusterModel, memberList,
      clusterWeights, clusterCounts, specMergeModels, simpleAverageStrategy, flattenModel,
      List.range_succ]

/-- C5 amended: the external strategy receives one weight and one
representative for every cluster index below K, the empty clusters included;
an empty cluster contributes weight 0 and a representative equal to the
untouched copy of the current global model (no merge runs for it). -/
theorem claim5_amended (merge : Merge) (gm : Model)
    (models : List Model) (ps : List ℚ) (K : Nat) (choices : List Int)
    (c : Nat) (hc : c < K) (hempty : memberList choices (c : Int) = []) :
    ((List.range K).map fun i => buildClusterModel merge gm models ps choices i).length = K ∧
    (clusterWeights K choices ps.length).length = K ∧
    ((List.range K).map fun i => buildClusterModel merge gm models ps choices i).getD c [] = gm ∧
    (clusterWeights K choices ps.length).getD c 1 = 0 := by
  refine ⟨by simp, by simp [clusterWeights, clusterCounts], ?_, ?_⟩
  · rw [getD_map_range _ K c hc]
    rw [buildClusterModel, hempty]
    rfl
  · rw [clusterWeights, clusterCounts, List.map_map]
    rw [getD_map_range _ K c hc]
    simp [Function.comp, hempty]

/-- C5 witness: the empty cluster 1 in a K = 3 round with one client. -/
theorem claim5_witness :
    ((1 : Nat) < 3 ∧ memberList [0] (1 : Int) = []) ∧
    (((List.range 3).map fun i =>
        buildClusterModel specMergeModels [[8]] [[[2]]] [1] [0] i).length = 3 ∧
      (clusterWeights 3 [0] ([(1 : ℚ)]).length).length = 3 ∧
      ((List.range 3).map fun i =>
        buildClusterModel specMergeModels [[8]] [[[2]]] [1] [0] i).getD 1 [] = [[8]] ∧
      (clusterWeights 3 [0] ([(1 : ℚ)]).length).getD 1 1 = 0) :=
  ⟨⟨by decide, by decide⟩,
    claim5_amended specMergeModels [[8]] [[[2]]] [1] 3 [0] 1
      (by decide) (by decide)⟩

theorem list_sum_map_div (l : List ℕ) (d : ℚ) :
    (l.map fun (v : Nat) => (v : ℚ) / d).sum = ((l.map fun (v : Nat) => (v : ℚ)).sum) / d := by
  induction l with
  | nil => simp
  | cons x rest ih => simp [ih, add_div]

theorem list_sum_map_add {α : Type} (l : List α) (f g : α → ℕ) :
    (l.map fun a => f a + g a).sum = (l.map f).sum + (l.map g).sum := by
  induction l with
  | nil => simp
  | cons x rest ih => simp [ih]; omega

theorem range_delta_sum : ∀ (K : Nat) (x : Int), 0 ≤ x → x < (K : Int) →
    ((List.range K).map fun (c : Nat) => if x = (c : Int) then (1 : Nat) else 0).sum = 1
  | 0, x, h0, hK => by
      exfalso
      simp only [Nat.cast_zero] at hK
      omega
  | K + 1, x, h0, hK => by
      rw [List.range_succ, List.map_append, List.sum_append]
      by_cases hxK : x = (K : Int)
      · have hz : ((List.range K).map fun (c : Nat) => if x = (c : Int) then (1 : Nat) else 0).sum = 0 := by
          apply List.sum_eq_zero
          intro t ht
          obtain ⟨c, hc, rfl⟩ := List.mem_map.mp ht
          have hcK : c < K := List.mem_range.mp hc
          have hne : x ≠ (c : Int) := by omega
          simp [hne]
        rw [hz]
        simp [hxK]
      · have hxK2 : x < (K : Int) := by
          push_cast at hK ⊢
          omega
        rw [range_delta_sum K x h0 hxK2]
        simp [hxK]

theorem memberList_cons_length (x : Int) (rest : List Int) (c : Int) :
    (memberList (x :: rest) c).length =
      (if x = c then 1 else 0) + (memberList rest c).length := by
  by_cases h : x = c
  · simp [memberList, List.filter_cons, h]
    omega
  · simp [memberList, List.filter_cons, h]

theorem clusterCounts_sum : ∀ (K : Nat) (choices : List Int),
    (∀ v ∈ choices, 0 ≤ v ∧ v < (K : Int)) →
    (clusterCounts K choices).sum = choices.length
  | K, [], _ => by simp [clusterCounts, memberList]
  | K, x :: rest, h => by
      have hx := h x (List.mem_cons_self _ _)
      have hr := clusterCounts_sum K rest fun v hv => h v (List.mem_cons_of_mem _ hv)
      unfold clusterCounts
      have hcongr : ((List.range K).map fun (c : Nat) => (memberList (x :: rest) (c : Int)).length)
          = (List.range K).map fun (c : Nat) =>
              (if x = (c : Int) then 1 else 0) + (memberList rest (c : Int)).length := by
        apply List.map_congr_left
        intro c _
        exact memberList_cons_length x rest (c : Int)
      rw [hcongr, list_sum_map_add, range_delta_sum K x hx.1 hx.2]
      unfold clusterCounts at hr
      rw [hr]
      simp only [List.length_cons]
      omega

/-- C6. With every choice a cluster index in [0, K) and at least one client,
the weights handed to the external strategy are exactly member count over
total client count for every cluster index, they sum to exactly 1 over all
K clusters, and empty clusters carry weight 0 (so the sum over the non-empty
clusters is also exactly 1, well within the 1e-6 tolerance). -/
theorem claim6_cluster_weights (K n : Nat) (choices : List Int)
    (hn : n = choices.length) (hne : choices ≠ [])
    (hrange : ∀ v ∈ choices, 0 ≤ v ∧ v < (K : Int)) :
    (clusterWeights K choices n).sum = 1 ∧
    (∀ c : Nat, c < K →
      (clusterWeights K choices n).getD c 0 =
        ((memberList choices (c : Int)).length : ℚ) / (n : ℚ)) ∧
    (∀ c : Nat, c < K → memberList choices (c : Int) = [] →
      (clusterWeights K choices n).getD c 0 = 0) := by
  subst hn
  have hsum : (clusterCounts K choices).sum = choices.length :=
    clusterCounts_sum K choices hrange
  refine ⟨?_, ?_, ?_⟩
  · rw [clusterWeights, list_sum_map_div, ← Nat.cast_list_sum, hsum]
    have hnz : ((choices.length : ℕ) : ℚ) ≠ 0 := by
      rw [Nat.cast_ne_zero]
      simpa [List.length_eq_zero] using hne
    exact div_self hnz
  · intro c hc
    rw [clusterWeights, clusterCounts, List.map_map, getD_map_range _ K c hc]
    rfl
  · intro c hc hemp
    rw [clusterWeights, clusterCounts, List.map_map, getD_map_range _ K c hc]
    simp [Function.comp, hemp]

/-- C6 witness: three clients with choices [0, 1, 0] under K = 3 give
weights [2/3, 1/3, 0]. -/
theorem claim6_witness :
    (3 = ([0, 1, 0] : List Int).length ∧ ([0, 1, 0] : List Int) ≠ [] ∧
      ∀ v ∈ ([0, 1, 0] : List Int), 0 ≤ v ∧ v < (3 : Int)) ∧
    ((clusterWeights 3 [0, 1, 0] 3).sum = 1 ∧
      (∀ c : Nat, c < 3 →
        (clusterWeights 3 [0, 1, 0] 3).getD c 0 =
          ((memberList [0, 1, 0] (c : Int)).length : ℚ) / ((3 : ℕ) : ℚ)) ∧
      (∀ c : Nat, c < 3 → memberList [0, 1, 0] (c : Int) = [] →
        (clusterWeights 3 [0, 1, 0] 3).getD c 0 = 0)) :=
  ⟨⟨by decide, by decide, by decide⟩,
    claim6_cluster_weights 3 3 [0, 1, 0] (by decide) (by decide) (by decide)⟩

/-! Centre initialisation (claim C7). -/

/-- C7 counterexample: the draw [0, 0, 0] lies in the sample space of
torch.randint(high=len(models_weights), size=(K,)) — which samples with
replacement from the flattened scalar pool of length n times m, here 4 for
n = 2 clients — and it selects the single scalar at position 0 three times,
so the initial centres are not K distinct client vectors (they are not
client vectors at all, and they are not distinct). -/
theorem claim7_counterexample :
    validDraw (generateWeights [[[1, 2]], [[3, 4]]]).length 3 [0, 0, 0] ∧
    (initClusterCentresFn dummyStrategy [1 / 2, 1 / 2] [[[1, 2]], [[3, 4]]] 3 [0, 0, 0]
        (generateWeights [[[1, 2]], [[3, 4]]]) ⟨none, [0, 0]⟩).centres = some [1, 1, 1] ∧
    ¬ ([(1 : ℚ), 1, 1].Nodup) := by
  refine ⟨by decide, rfl, by simp⟩

/-- C7 amended: on a first round (no prior centres) the initialisation takes,
for each of the K independently drawn positions (drawn with replacement,
repeats possible), the scalar entry of the flattened weight list at that
position: the K initial centres are single scalars of the concatenated
weight pool, not client vectors, and need not be distinct. -/
theorem claim7_amended (agg : Agg) (ps : List ℚ) (models : List Model) (K : Nat)
    (draw : List Nat) (choices : List Int)
    (h : validDraw (generateWeights models).length K draw) :
    (initClusterCentresFn agg ps models K draw (generateWeights models) ⟨none, choices⟩).centres
      = some (draw.map fun i => (generateWeights models).getD i 0) ∧
    (draw.map fun i => (generateWeights models).getD i 0).length = K ∧
    ∀ x ∈ draw.map fun i => (generateWeights models).getD i 0, x ∈ generateWeights models := by
  refine ⟨rfl, by simp [h.1], ?_⟩
  intro x hx
  obtain ⟨i, hi, rfl⟩ := List.mem_map.mp hx
  have hilt : i < (generateWeights models).length := h.2 i hi
  rw [List.getD_eq_getElem _ _ hilt]
  exact List.getElem_mem hilt

/-- C7 witness: a valid draw over the four-scalar pool of two two-scalar
models. -/
theorem claim7_witness :
    validDraw (generateWeights [[[(1 : ℚ), 2]], [[3, 4]]]).length 3 [0, 1, 0] ∧
    ((initClusterCentresFn dummyStrategy [1] [[[(1 : ℚ), 2]], [[3, 4]]] 3 [0, 1, 0]
        (generateWeights [[[(1 : ℚ), 2]], [[3, 4]]]) ⟨none, [0, 0]⟩).centres
      = some ([0, 1, 0].map fun i => (generateWeights [[[(1 : ℚ), 2]], [[3, 4]]]).getD i 0) ∧
      (([0, 1, 0] : List Nat).map fun i =>
        (generateWeights [[[(1 : ℚ), 2]], [[3, 4]]]).getD i 0).length = 3 ∧
      ∀ x ∈ ([0, 1, 0] : List Nat).map fun i =>
        (generateWeights [[[(1 : ℚ), 2]], [[3, 4]]]).getD i 0,
        x ∈ generateWeights [[[(1 : ℚ), 2]], [[3, 4]]]) :=
  ⟨by decide, claim7_amended dummyStrategy [1] [[[(1 : ℚ), 2]], [[3, 4]]] 3 [0, 1, 0] [0, 0]
    (by decide)⟩

/-! The whole clustering call (claim C8). -/

theorem initClusterCentresFn_choices (agg : Agg) (ps : List ℚ) (models : List Model)
    (K : Nat) (draw : List Nat) (mw : List ℚ) (st : ClusterState) :
    (initClusterCentresFn agg ps models K draw mw st).choices = st.choices := by
  rcases st with ⟨co, ch⟩
  cases co <;> rfl

theorem initClusterCentresFn_centres_some (agg : Agg) (ps : List ℚ) (models : List Model)
    (K : Nat) (draw : List Nat) (mw : List ℚ) (st : ClusterState) :
    ∃ cs, (initClusterCentresFn agg ps models K draw mw st).centres = some cs := by
  rcases st with ⟨co, ch⟩
  cases co <;> exact ⟨_, rfl⟩

/-- C8 counterexample: the centre tensor produced by initialisation is
[1e-5, 0, 0], which has nonzero norm (and, being rational, no NaN entries),
yet the loop body executes: under the eps clamp the self-similarity is
1e-10 / 1e-8 = 0.01 < 0.99, and the sweep then fails with IndexError (the
flattened weight list is longer than cluster_choices), so the call raises
instead of returning with cluster_choices unchanged. -/
theorem claim8_counterexample :
    sqNorm [1 / 100000, (0 : ℚ), 0] ≠ 0 ∧
    (initClusterCentresFn dummyStrategy [1] [[[1 / 100000, 0, 0]]] 3 [0, 1, 2]
        (generateWeights [[[1 / 100000, 0, 0]]]) ⟨none, [0]⟩).centres
      = some [1 / 100000, 0, 0] ∧
    clustering dummyStrategy [1] [[[1 / 100000, 0, 0]]] 3 [0, 1, 2] 5 ⟨none, [0]⟩
      = .error .indexError := by
  refine ⟨by norm_num [sqNorm, dotList], rfl, ?_⟩
  norm_num [clustering, clusteringLoop, initClusterCentresFn, generateWeights,
    flattenModel, cosLtB, sqNorm, dotList, assignStep, threshold, eps]

/-- C8 amended: whenever the centre tensor current at the loop guard (the one
produced by initialisation) has squared norm at least 0.99 * 1e-8 — in
particular whenever its norm is at least 1e-4, and for any NaN-free tensor
of ordinary magnitude — the loop body executes zero times and clustering
returns with cluster_choices unchanged from before the call.  Below that
bound the body runs and raises (claim8_counterexample). -/
theorem claim8_amended (agg : Agg) (ps : List ℚ) (models : List Model) (K : Nat)
    (draw : List Nat) (fuel : Nat) (st : ClusterState) (hf : 1 ≤ fuel)
    (hc : threshold * eps ≤ sqNorm
      ((initClusterCentresFn agg ps models K draw (generateWeights models) st).centres.getD [])) :
    clustering agg ps models K draw fuel st =
      .ok ⟨(initClusterCentresFn agg ps models K draw (generateWeights models) st).centres,
        st.choices⟩ := by
  obtain ⟨f, rfl⟩ : ∃ f, fuel = f + 1 := ⟨fuel - 1, by omega⟩
  obtain ⟨cs, hcs⟩ :=
    initClusterCentresFn_centres_some agg ps models K draw (generateWeights models) st
  rw [hcs] at hc
  simp only [Option.getD_some] at hc
  have hguard : cosLtB cs cs threshold = false := by
    rw [cosLtB_self_eq]
    exact decide_eq_false (not_lt.mpr hc)
  simp only [clustering, hcs, Option.getD_some, initClusterCentresFn_choices,
    clusteringLoop_succ, hguard, Bool.false_eq_true, if_false]

/-- C8 witness: with one client model [[1]] the initial centres are [1, 1, 1]
with squared norm 3, so clustering returns at once with choices intact. -/
theorem claim8_witness :
    (1 ≤ 100 ∧ threshold * eps ≤ sqNorm
      ((initClusterCentresFn dummyStrategy [1] [[[1]]] 3 [0, 0, 0]
        (generateWeights [[[1]]]) ⟨none, [0]⟩).centres.getD [])) ∧
    clustering dummyStrategy [1] [[[1]]] 3 [0, 0, 0] 100 ⟨none, [0]⟩ =
      .ok ⟨(initClusterCentresFn dummyStrategy [1] [[[1]]] 3 [0, 0, 0]
        (generateWeights [[[1]]]) ⟨none, [0]⟩).centres, [0]⟩ :=
  ⟨⟨by decide, by norm_num [initClusterCentresFn, generateWeights, flattenModel,
      sqNorm, dotList, threshold, eps]⟩,
    claim8_amended dummyStrategy [1] [[[1]]] 3 [0, 0, 0] 100 ⟨none, [0]⟩ (by decide)
      (by norm_num [initClusterCentresFn, generateWeights, flattenModel,
        sqNorm, dotList, threshold, eps])⟩

end GroupWise
